import Mathlib

/-!
Shallow embedding of `deepali/losses/functional.py` over exact rational tensors,
with theorems checking the natural-language specification against the code.

Tensors are modelled as a shape (list of dimension sizes) together with a flat
row-major data list of rationals.  External torch primitives (`expand_as`,
broadcasting, `sum`, `mean`) are given their standard semantics; the repository
functions are translated statement by statement from the Python source.
-/

namespace Deepali

/-- A tensor: shape (list of dimension sizes) and flat row-major data. -/
structure Tensor where
  shape : List Nat
  data : List ℚ
  deriving DecidableEq, Repr

/-- Element lookup in the flat data, defaulting to 0 out of range. -/
def tensorGetD (t : Tensor) (k : Nat) : ℚ := t.data.getD k 0

/-- `t.sum()`: sum of all elements. -/
def tsum (t : Tensor) : ℚ := t.data.sum

/-- `t.numel()`: number of elements. -/
def numel (t : Tensor) : Nat := t.data.length

/-- `t.mean()`: arithmetic mean over all elements. -/
def tmean (t : Tensor) : ℚ := tsum t / (numel t : ℚ)

/-- A freshly allocated 0-dimensional scalar tensor. -/
def scalarT (q : ℚ) : Tensor := ⟨[], [q]⟩

/-- `(t != 0).sum()`: number of nonzero elements. -/
def nonzeroCount (t : Tensor) : Nat := (t.data.filter (fun v => decide (v ≠ 0))).length

/-- Row-major multi-index of flat position `k` in a given shape. -/
def multiIndex : List Nat → Nat → List Nat
  | [], _ => []
  | _ :: rest, k => (k / rest.prod) :: multiIndex rest (k % rest.prod)

/-- Row-major flat position of a multi-index in a given shape. -/
def flatIndex : List Nat → List Nat → Nat
  | _ :: srest, i :: irest => i * srest.prod + flatIndex srest irest
  | _, _ => 0

/-- Left-pad a shape with singleton dimensions to rank `r` (torch broadcast alignment). -/
def padShape (r : Nat) (s : List Nat) : List Nat := List.replicate (r - s.length) 1 ++ s

/-- `mask.expand_as(loss)`: broadcast a tensor to a target shape, repeating along
singleton dimensions (torch semantics, trailing-dimension alignment). -/
def expandAs (mask : Tensor) (shape : List Nat) : Tensor :=
  let ms := padShape shape.length mask.shape
  ⟨shape, (List.range shape.prod).map (fun k =>
    let idx := multiIndex shape k
    let midx := List.zipWith (fun i s => if s = 1 then 0 else i) idx ms
    tensorGetD mask (flatIndex ms midx))⟩

/-- `reduce_loss(loss, reduction, mask)` from `functional.py` lines 644-656. -/
def reduce_loss (loss : Tensor) (reduction : String) (mask : Option Tensor) :
    Except String Tensor :=
  if reduction = "mean" ∨ reduction = "sum" ∨ reduction = "none" then
    if reduction = "none" then .ok loss
    else
      match mask with
      | none => .ok (scalarT (if reduction = "mean" then tmean loss else tsum loss))
      | some m =>
        let value := tsum loss
        if reduction = "mean" then .ok (scalarT (value / tsum (expandAs m loss.shape)))
        else .ok (scalarT value)
  else .error "ValueError: reduction"

/-- Result of `masked_loss`: the returned tensor together with the final contents
of the caller's `loss` buffer (the code multiplies in place with `mul_`). -/
structure MaskedOut where
  result : Tensor
  lossBuf : Tensor
  deriving DecidableEq, Repr

/-- `masked_loss(loss, mask)` from `functional.py` lines 627-641.  The in-place
`loss.mul_(mask)` is modelled by returning both the result and the caller's
buffer contents after the call. -/
def masked_loss (loss : Tensor) (mask : Option Tensor) : Except String MaskedOut :=
  match mask with
  | none => .ok ⟨loss, loss⟩
  | some m =>
    if m.shape.getD 0 0 ≠ 1 ∧ m.shape.getD 0 0 ≠ loss.shape.getD 0 0 then
      .error "ValueError: mask batch size"
    else if m.shape.getD 1 0 ≠ 1 ∧ m.shape.getD 1 0 ≠ loss.shape.getD 0 0 then
      .error "ValueError: mask channels"
    else if m.shape.drop 2 ≠ loss.shape.drop 2 then
      .error "ValueError: mask spatial shape"
    else
      let out : Tensor :=
        ⟨loss.shape, List.zipWith (fun a b => a * b) loss.data (expandAs m loss.shape).data⟩
      .ok ⟨out, out⟩

/-- `t.squeeze().shape`: drop all singleton dimensions. -/
def squeezeShape (s : List Nat) : List Nat := s.filter (fun n => decide (n ≠ 1))

/-- `ssd_loss(input, target, mask, norm, reduction)` from `functional.py` lines 234-276. -/
def ssd_loss (input target : Tensor) (mask : Option Tensor) (norm : Option Tensor)
    (reduction : String) : Except String Tensor :=
  if input.shape ≠ target.shape then .error "ValueError: shape"
  else
    match masked_loss
      ⟨input.shape, List.zipWith (fun a b => (a - b) ^ 2) input.data target.data⟩ mask with
    | .error e => .error e
    | .ok mo =>
      match reduce_loss mo.result reduction mask with
      | .error e => .error e
      | .ok red =>
        match norm with
        | none => .ok red
        | some nt =>
          if squeezeShape nt.shape ≠ [] then .error "ValueError: norm must be scalar"
          else
            let nv := nt.data.getD 0 0
            if nv > 0 then .ok ⟨red.shape, red.data.map (fun x => x / nv)⟩ else .ok red

/-- Modelled from the spec: `dot_channels(a, b, weight)` lives in `deepali.core.image`,
which is not among the provided sources.  Per the spec it is a "per batch-and-channel
reduction over spatial dims" of the elementwise product, optionally weighted. -/
def dot_channels (a b : Tensor) (weight : Option Tensor) : Tensor :=
  let n := a.shape.getD 0 0
  let c := a.shape.getD 1 0
  let s := (a.shape.drop 2).prod
  ⟨[n, c], (List.range (n * c)).map (fun k =>
    ((List.range s).map (fun j =>
      tensorGetD a (k * s + j) * tensorGetD b (k * s + j) *
        (match weight with
         | none => 1
         | some w => tensorGetD w (k * s + j)))).sum)⟩

/-- `dice_score(input, target, weight, epsilon, reduction)` from `functional.py`
lines 82-117. -/
def dice_score (input target : Tensor) (weight : Option Tensor) (epsilon : ℚ)
    (reduction : String) : Except String Tensor :=
  if input.shape.length < 3 then .error "ValueError: rank"
  else if input.shape ≠ target.shape then .error "ValueError: shape"
  else
    let inter := dot_channels input target weight
    let den : Tensor := ⟨inter.shape, List.zipWith (fun a b => a + b)
      (dot_channels input input weight).data (dot_channels target target weight).data⟩
    let loss : Tensor :=
      ⟨inter.shape, List.zipWith (fun a b => (a * 2 + epsilon) / (b + epsilon)) inter.data den.data⟩
    reduce_loss loss reduction none

/-- Pointwise sum of equally shaped flat fields (`sum` over the stacked last axis). -/
def addLists (a b : List ℚ) : List ℚ := List.zipWith (fun x y => x + y) a b

/-- `cat([...], dim=-1).sum(-1)`: pointwise sum across a list of flat fields. -/
def sumAcross : List (List ℚ) → List ℚ
  | [] => []
  | l :: rest => rest.foldl addLists l

/-- `reduce_loss` on a flat field with no mask, returning the flat data. -/
def reduceList (l : List ℚ) (reduction : String) : Except String (List ℚ) :=
  match reduce_loss ⟨[l.length], l⟩ reduction none with
  | .error e => .error e
  | .ok t => .ok t.data

/-- Python `p % 2 == 0` on an exact numeric value. -/
def pEven (p : ℚ) : Bool := decide ((p / 2).den = 1)

/-- The signature default of the `q` parameter of `grad_loss` (`q = 1` in the source). -/
def grad_loss_default_q : Option ℚ := some 1

/-- Lines 323-324 of `grad_loss`: `if q is None: q = 1.0 / p`. -/
def grad_loss_resolve_q (p : ℚ) (q : Option ℚ) : ℚ :=
  match q with
  | none => 1 / p
  | some v => v

/-- `grad_loss(u, p, q, ..., reduction)` from `functional.py` lines 279-340.
`ndimU` is `u.ndim`, `chU` is `u.shape[1]`, `derivVals` is the output of the
external `spatial_derivatives` for the selected keys (one flat field per key),
and `powFn` is the external exponentiation primitive `torch.pow`. -/
def grad_loss (powFn : ℚ → ℚ → ℚ) (ndimU chU : Nat) (derivVals : List (List ℚ))
    (p : ℚ) (q : Option ℚ) (reduction : String) : Except String (List ℚ) :=
  if ndimU < 4 then
    if reduction = "none" then .error "NotImplementedError" else .ok [0]
  else if ndimU - 2 ≠ chU then .error "ValueError: shape"
  else
    let qv := grad_loss_resolve_q p q
    let terms := derivVals.map (fun d => d.map (fun x =>
      if p = 1 then |x|
      else if p ≠ 0 then (if pEven p then powFn x p else powFn |x| p)
      else x))
    let summed := sumAcross terms
    let outed :=
      if qv = 0 then summed.map (fun x => |x|)
      else if qv ≠ 1 then summed.map (fun x => powFn x qv)
      else summed
    reduceList outed reduction

/-- Modelled from the spec: `SpatialDerivativeKeys` of `deepali.core.enum` is not among
the provided sources.  Per the spec, the unique second-order derivative keys in `d`
dimensions are the unordered pairs of axes. -/
def uniqueSecondOrderKeys (d : Nat) : List (Nat × Nat) :=
  ((List.range d).map (fun i => ((List.range d).drop i).map (fun j => (i, j)))).flatten

/-- Modelled from the spec: a second-order derivative key is mixed when its axes differ. -/
def isMixed (k : Nat × Nat) : Bool := decide (k.1 ≠ k.2)

/-- `bending_loss(u, ..., reduction)` from `functional.py` lines 343-382.  `deriv`
maps each unique second-order key to its flat derivative field (the output of the
external `spatial_derivatives`).  The source multiplies each derivative by 2 when
its key is mixed, then squares and sums over the key axis. -/
def bending_loss (ndimU chU : Nat) (deriv : Nat × Nat → List ℚ) (reduction : String) :
    Except String (List ℚ) :=
  if ndimU < 4 then
    if reduction = "none" then .error "NotImplementedError" else .ok [0]
  else if ndimU - 2 ≠ chU then .error "ValueError: shape"
  else
    let keys := uniqueSecondOrderKeys chU
    let weighted := keys.map (fun k => (deriv k).map (fun x => (if isMixed k then 2 else 1) * x))
    let loss := sumAcross (weighted.map (fun l => l.map (fun x => x ^ 2)))
    reduceList loss reduction

/-- The per-point bending value as worded by the spec: squared second partials with
mixed squared terms counted twice. -/
def bending_claim_pointwise (chU : Nat) (deriv : Nat × Nat → List ℚ) : List ℚ :=
  sumAcross ((uniqueSecondOrderKeys chU).map (fun k =>
    (deriv k).map (fun x => (if isMixed k then 2 else 1) * x ^ 2)))

/-- The per-point bending value the code actually computes: mixed squared terms
counted four times (the derivative is doubled before squaring). -/
def bending_code_pointwise (chU : Nat) (deriv : Nat × Nat → List ℚ) : List ℚ :=
  sumAcross ((uniqueSecondOrderKeys chU).map (fun k =>
    (deriv k).map (fun x => (if isMixed k then 4 else 1) * x ^ 2)))

/-- `curvature_loss(u, ..., reduction)` from `functional.py` lines 389-427.  `deriv`
maps each axis to its unmixed second-order derivative field. -/
def curvature_loss (ndimU chU : Nat) (deriv : Nat → List ℚ) (reduction : String) :
    Except String (List ℚ) :=
  if ndimU < 4 then
    if reduction = "none" then .error "NotImplementedError" else .ok [0]
  else if ndimU - 2 ≠ chU then .error "ValueError: shape"
  else
    let summed := sumAcross ((List.range chU).map deriv)
    let loss := summed.map (fun x => (1 / 2 : ℚ) * x ^ 2)
    reduceList loss reduction

/-- `divergence_loss(u, q, ..., reduction)` from `functional.py` lines 442-465.
It calls `grad_loss` with `p=0` and the unmixed first-order derivative keys,
leaving `q` at the `grad_loss` signature default. -/
def divergence_loss (powFn : ℚ → ℚ → ℚ) (ndimU chU : Nat) (derivVals : List (List ℚ))
    (q : ℚ) (reduction : String) : Except String (List ℚ) :=
  if ndimU < 4 then
    if reduction = "none" then .error "NotImplementedError" else .ok [0]
  else if ndimU - 2 ≠ chU then .error "ValueError: shape"
  else
    match grad_loss powFn ndimU chU derivVals 0 grad_loss_default_q "none" with
    | .error e => .error e
    | .ok l =>
      let l2 := if q = 1 then l.map (fun x => |x|) else l.map (fun x => powFn x q)
      reduceList l2 reduction

/-- `elasticity_loss(u, ..., reduction)` from `functional.py` lines 468-513.
`deriv a b` is the flat field of the first-order derivative of channel `a`
along axis `b`; `numelPts` is the number of points of the zero-initialised
accumulator `(N,) + u.shape[2:]`. -/
def elasticity_loss (ndimU chU : Nat) (deriv : Nat → Nat → List ℚ) (numelPts : Nat)
    (reduction : String) : Except String (List ℚ) :=
  if ndimU < 4 then
    if reduction = "none" then .error "NotImplementedError" else .ok [0]
  else if ndimU - 2 ≠ chU then .error "ValueError: shape"
  else
    let pairs := ((List.range chU).map (fun a => (List.range chU).map (fun b => (a, b)))).flatten
    let loss := pairs.foldl (fun acc ab =>
      addLists acc (List.zipWith (fun x y => ((1 / 2 : ℚ) * (x + y)) ^ 2)
        (deriv ab.1 ab.2) (deriv ab.2 ab.1)))
      (List.replicate numelPts 0)
    if reduction = "none" then .ok loss else reduceList loss reduction

/-- The `margin` argument of `inverse_consistency_loss`: a Python `int` or `float`. -/
inductive MarginArg where
  | intM (m : Int)
  | floatM (m : ℚ)
  deriving DecidableEq, Repr

/-- Numeric value of a margin argument. -/
def marginVal : MarginArg → ℚ
  | .intM m => (m : ℚ)
  | .floatM m => m

/-- Margin handling of `inverse_consistency_loss`, `functional.py` lines 599-609:
the per-axis number of grid points trimmed at each boundary (no trimming at all is
the all-zeros list, the `margin > 0` guard having been skipped). -/
def icl_margin_trim (m : MarginArg) (gridSize : List Nat) : Except String (List Nat) :=
  if marginVal m > 0 then
    match m with
    | .floatM f =>
      if f < 0 ∨ f ≥ 1 then .error "ValueError: margin"
      else .ok (gridSize.map (fun n => (f * (n : ℚ)).floor.toNat))
    | .intM i => .ok (List.replicate gridSize.length (max 0 i).toNat)
  else .ok (List.replicate gridSize.length 0)

/-- Number of nonzero entries of a flat mask (`(mask != 0).sum()`). -/
def nonzeroCountL (l : List ℚ) : Nat := (l.filter (fun v => decide (v ≠ 0))).length

/-- Reduction step of `inverse_consistency_loss`, `functional.py` lines 616-624:
`errPts` is the flat per-point error-norm field, `mask` the optional flat mask data. -/
def icl_reduce (errPts : List ℚ) (mask : Option (List ℚ)) (reduction : String) : List ℚ :=
  if reduction = "none" then errPts
  else
    let count : ℚ :=
      if reduction = "mean" then
        match mask with
        | some md => (nonzeroCountL md : ℚ)
        | none => (errPts.length : ℚ)
      else (errPts.length : ℚ)
    [errPts.sum / count]

/-- A concrete exponentiation oracle for witnesses. -/
def powFix : ℚ → ℚ → ℚ := fun x _ => x

/-- A concrete second-order derivative oracle: value 1 at a single point for every key. -/
def derivTwoKeys : Nat × Nat → List ℚ := fun _ => [1]

/-- A concrete unmixed-derivative oracle: value 1 at a single point for every axis. -/
def derivAxis : Nat → List ℚ := fun _ => [1]

/-- A concrete channel-by-axis derivative oracle: value 1 at a single point. -/
def derivPair : Nat → Nat → List ℚ := fun _ _ => [1]

/-! ## Helper lemmas -/

theorem reduceList_none (l : List ℚ) : reduceList l "none" = .ok l := rfl

theorem reduceList_mean (l : List ℚ) :
    reduceList l "mean" = .ok [l.sum / (l.length : ℚ)] := rfl

theorem reduceList_sum (l : List ℚ) : reduceList l "sum" = .ok [l.sum] := rfl

theorem zipWith_map_same {α : Type} (f : ℚ → ℚ → ℚ) (g h : α → ℚ) (l : List α) :
    List.zipWith f (l.map g) (l.map h) = l.map (fun a => f (g a) (h a)) := by
  induction l with
  | nil => rfl
  | cons a t ih => simp [ih]

theorem getD_zero_or_mem (l : List ℚ) (k : Nat) : l.getD k 0 = 0 ∨ l.getD k 0 ∈ l := by
  induction l generalizing k with
  | nil => left; rfl
  | cons a t ih =>
    cases k with
    | zero => right; exact List.mem_cons_self a t
    | succ n =>
      rcases ih n with h | h
      · left; simpa using h
      · right; exact List.mem_cons_of_mem a (by simpa using h)

theorem binary_sum_eq_count (l : List ℚ) (h : ∀ v ∈ l, v = 0 ∨ v = 1) :
    l.sum = ((l.filter (fun v => decide (v ≠ 0))).length : ℚ) := by
  induction l with
  | nil => simp
  | cons a t ih =>
    have ht := ih (fun v hv => h v (List.mem_cons_of_mem a hv))
    rcases h a (List.mem_cons_self a t) with h0 | h1
    · subst h0
      simpa [List.filter_cons] using ht
    · subst h1
      rw [List.sum_cons, ht]
      simp [List.filter_cons]
      ring

theorem dice_ratio_map_one (r : List Nat) (g : Nat → ℚ) (eps : ℚ)
    (hg : ∀ k, 0 ≤ g k) (heps : 0 < eps) :
    r.map (fun k => (g k * 2 + eps) / (g k + g k + eps)) = List.replicate r.length 1 := by
  rw [List.eq_replicate_iff]
  constructor
  · simp
  · intro b hb
    rcases List.mem_map.mp hb with ⟨k, _, rfl⟩
    have hd : 0 < g k + g k + eps := by
      have := hg k
      linarith
    rw [show g k * 2 = g k + g k by ring]
    exact div_self hd.ne'

theorem map_mul_map_sq (w : ℚ) (l : List ℚ) :
    (l.map (fun x => w * x)).map (fun x => x ^ 2) = l.map (fun x => w ^ 2 * x ^ 2) := by
  rw [List.map_map]
  apply List.map_congr_left
  intro x _
  simp [Function.comp, mul_pow]

/-! ## Claim theorems -/

/-- Claim C10: with reduction "sum", `reduce_loss` returns exactly the plain sum of
the loss tensor, and the mask argument has no effect on the result. -/
theorem reduce_loss_sum_ignores_mask (loss mask : Tensor) :
    reduce_loss loss "sum" (some mask) = .ok (scalarT (tsum loss)) ∧
    reduce_loss loss "sum" (some mask) = reduce_loss loss "sum" none := by
  exact ⟨rfl, rfl⟩

/-- Claim C1, counterexample: with a non-binary mask of value 2 everywhere over a
loss of two ones, the code returns sum 2 divided by the mask value sum 4 (giving 1/2),
not sum 2 divided by the nonzero count 2 (which would give 1). -/
theorem reduce_loss_mean_mask_count_claim_false :
    reduce_loss ⟨[2], [1, 1]⟩ "mean" (some ⟨[2], [2, 2]⟩) = .ok (scalarT (1 / 2)) ∧
    (1 / 2 : ℚ) ≠
      tsum ⟨[2], [1, 1]⟩ / (nonzeroCount (expandAs ⟨[2], [2, 2]⟩ [2]) : ℚ) := by
  constructor
  · simp [reduce_loss, tmean, tsum, numel, scalarT, expandAs, padShape, multiIndex,
      flatIndex, tensorGetD, List.range_succ] <;> norm_num
  · norm_num [tsum, nonzeroCount, expandAs, tensorGetD, padShape, multiIndex, flatIndex,
      List.range_succ, List.filter_cons]

/-- Claim C1, amended: `reduce_loss(loss, "mean", mask)` divides the sum of the loss
by the SUM of the mask's values broadcast to the loss's shape; this coincides with
the nonzero count exactly when the mask is binary (all values 0 or 1). -/
theorem reduce_loss_mean_mask_divisor (loss mask : Tensor)
    (hbin : ∀ v ∈ mask.data, v = 0 ∨ v = 1) :
    reduce_loss loss "mean" (some mask) =
      .ok (scalarT (tsum loss / tsum (expandAs mask loss.shape))) ∧
    tsum (expandAs mask loss.shape) = (nonzeroCount (expandAs mask loss.shape) : ℚ) := by
  refine ⟨rfl, ?_⟩
  apply binary_sum_eq_count
  intro v hv
  simp only [expandAs, tensorGetD] at hv
  rcases List.mem_map.mp hv with ⟨k, _, rfl⟩
  rcases getD_zero_or_mem mask.data _ with h | h
  · exact Or.inl h
  · exact hbin _ h

/-- Witness for the amended C1 at a concrete binary mask. -/
theorem reduce_loss_mean_mask_divisor_witness :
    reduce_loss ⟨[2], [1, 1]⟩ "mean" (some ⟨[2], [1, 0]⟩) =
      .ok (scalarT (tsum ⟨[2], [1, 1]⟩ / tsum (expandAs ⟨[2], [1, 0]⟩ [2]))) ∧
    tsum (expandAs ⟨[2], [1, 0]⟩ [2]) = (nonzeroCount (expandAs ⟨[2], [1, 0]⟩ [2]) : ℚ) :=
  reduce_loss_mean_mask_divisor ⟨[2], [1, 1]⟩ ⟨[2], [1, 0]⟩ (by decide)

/-- Claim C2, counterexample: in two dimensions with every second derivative equal
to 1 at a single point, the code computes 1 + (2*1)^2 + 1 = 6 while the claim's
formula (mixed squared term counted twice) gives 1 + 2*1 + 1 = 4. -/
theorem bending_loss_mixed_weight_claim_false :
    bending_loss 4 2 derivTwoKeys "none" = .ok [6] ∧
    bending_claim_pointwise 2 derivTwoKeys = [4] ∧
    ([6] : List ℚ) ≠ [4] := by
  refine ⟨?_, ?_, by norm_num⟩
  · simp [bending_loss, uniqueSecondOrderKeys, isMixed, derivTwoKeys, sumAcross, addLists,
      reduceList, reduce_loss, List.range_succ] <;> norm_num
  · simp [bending_claim_pointwise, uniqueSecondOrderKeys, isMixed, derivTwoKeys, sumAcross,
      addLists, List.range_succ] <;> norm_num

/-- Claim C2, amended: before reduction, `bending_loss` equals at each point the sum
over unique second-order keys of the squared second partials with each MIXED squared
term counted FOUR times (the code doubles the mixed derivative before squaring). -/
theorem bending_loss_mixed_weight_factor_four (ndimU chU : Nat)
    (deriv : Nat × Nat → List ℚ) (h4 : 4 ≤ ndimU) (hch : ndimU - 2 = chU) :
    bending_loss ndimU chU deriv "none" = .ok (bending_code_pointwise chU deriv) := by
  have hlt : ¬ ndimU < 4 := by omega
  have hne : ¬ ndimU - 2 ≠ chU := by omega
  unfold bending_loss
  rw [if_neg hlt, if_neg hne]
  rw [reduceList_none]
  unfold bending_code_pointwise
  have hl : ((uniqueSecondOrderKeys chU).map (fun k =>
        (deriv k).map (fun x => (if isMixed k then 2 else 1) * x))).map
          (fun l => l.map (fun x => x ^ 2)) =
      (uniqueSecondOrderKeys chU).map (fun k =>
        (deriv k).map (fun x => (if isMixed k then 4 else 1) * x ^ 2)) := by
    rw [List.map_map]
    apply List.map_congr_left
    intro k _
    simp only [Function.comp]
    rw [map_mul_map_sq]
    apply List.map_congr_left
    intro x _
    cases hm : isMixed k <;> simp [hm] <;> norm_num
  rw [hl]

/-- Witness for the amended C2 at a concrete derivative oracle. -/
theorem bending_loss_mixed_weight_factor_four_witness :
    bending_loss 4 2 derivTwoKeys "none" = .ok (bending_code_pointwise 2 derivTwoKeys) :=
  bending_loss_mixed_weight_factor_four 4 2 derivTwoKeys (by decide) (by decide)

/-- Claim C3: for inputs of rank < 4 (affine/linear transforms), each of
`grad_loss`, `bending_loss`, `curvature_loss`, `divergence_loss` and
`elasticity_loss` returns the zero scalar for reduction "mean" or "sum" and
raises a NotImplementedError-class error for reduction "none". -/
theorem linear_transform_zero_loss (powFn : ℚ → ℚ → ℚ) (ndimU chU : Nat)
    (dv : List (List ℚ)) (d2 : Nat × Nat → List ℚ) (d1 : Nat → List ℚ)
    (dp : Nat → Nat → List ℚ) (p qdiv : ℚ) (qo : Option ℚ) (m : Nat) (reduction : String)
    (hrank : ndimU < 4) (hred : reduction = "mean" ∨ reduction = "sum") :
    (grad_loss powFn ndimU chU dv p qo reduction = .ok [0] ∧
     bending_loss ndimU chU d2 reduction = .ok [0] ∧
     curvature_loss ndimU chU d1 reduction = .ok [0] ∧
     divergence_loss powFn ndimU chU dv qdiv reduction = .ok [0] ∧
     elasticity_loss ndimU chU dp m reduction = .ok [0]) ∧
    (grad_loss powFn ndimU chU dv p qo "none" = .error "NotImplementedError" ∧
     bending_loss ndimU chU d2 "none" = .error "NotImplementedError" ∧
     curvature_loss ndimU chU d1 "none" = .error "NotImplementedError" ∧
     divergence_loss powFn ndimU chU dv qdiv "none" = .error "NotImplementedError" ∧
     elasticity_loss ndimU chU dp m "none" = .error "NotImplementedError") := by
  have hnn : reduction ≠ "none" := by rcases hred with h | h <;> subst h <;> decide
  refine ⟨⟨?_, ?_, ?_, ?_, ?_⟩, ?_, ?_, ?_, ?_, ?_⟩ <;>
    simp [grad_loss, bending_loss, curvature_loss, divergence_loss, elasticity_loss,
      hrank, hnn]

/-- Witness for C3 at rank 2 with reduction "sum". -/
theorem linear_transform_zero_loss_witness :
    (grad_loss powFix 2 0 [] 2 none "sum" = .ok [0] ∧
     bending_loss 2 0 derivTwoKeys "sum" = .ok [0] ∧
     curvature_loss 2 0 derivAxis "sum" = .ok [0] ∧
     divergence_loss powFix 2 0 [] 1 "sum" = .ok [0] ∧
     elasticity_loss 2 0 derivPair 1 "sum" = .ok [0]) ∧
    (grad_loss powFix 2 0 [] 2 none "none" = .error "NotImplementedError" ∧
     bending_loss 2 0 derivTwoKeys "none" = .error "NotImplementedError" ∧
     curvature_loss 2 0 derivAxis "none" = .error "NotImplementedError" ∧
     divergence_loss powFix 2 0 [] 1 "none" = .error "NotImplementedError" ∧
     elasticity_loss 2 0 derivPair 1 "none" = .error "NotImplementedError") :=
  linear_transform_zero_loss powFix 2 0 [] derivTwoKeys derivAxis derivPair 2 1 none 1
    "sum" (by decide) (Or.inr rfl)

/-- Claim C4, counterexample: `masked_loss` multiplies the loss in place, so after
the call the caller's loss buffer holds 6 = 3 * 2, not the original value 3. -/
theorem masked_loss_mutates_input :
    masked_loss ⟨[1, 1], [3]⟩ (some ⟨[1, 1], [2]⟩) =
      .ok ⟨⟨[1, 1], [6]⟩, ⟨[1, 1], [6]⟩⟩ ∧
    (⟨[1, 1], [6]⟩ : Tensor) ≠ ⟨[1, 1], [3]⟩ := by
  constructor
  · simp [masked_loss, expandAs, padShape, multiIndex, flatIndex, tensorGetD,
      List.range_succ] <;> norm_num
  · simp only [ne_eq, Tensor.mk.injEq, not_and]
    intro _
    norm_num

/-- Claim C4, amended: on success, `masked_loss` returns the very buffer of the
caller's loss argument, now overwritten in place with the elementwise product of
the loss and the broadcast mask. -/
theorem masked_loss_in_place_product (loss m : Tensor) (out : MaskedOut)
    (h : masked_loss loss (some m) = .ok out) :
    out.result = out.lossBuf ∧
    out.result = ⟨loss.shape,
      List.zipWith (fun a b => a * b) loss.data (expandAs m loss.shape).data⟩ := by
  simp only [masked_loss] at h
  split_ifs at h
  all_goals
    first
    | exact Except.noConfusion h
    | (injection h with h2
       subst h2
       exact ⟨rfl, rfl⟩)

/-- Witness for the amended C4 at a concrete loss and mask. -/
theorem masked_loss_in_place_product_witness :
    (⟨⟨[1, 1], [6]⟩, ⟨[1, 1], [6]⟩⟩ : MaskedOut).result =
      (⟨⟨[1, 1], [6]⟩, ⟨[1, 1], [6]⟩⟩ : MaskedOut).lossBuf ∧
    (⟨⟨[1, 1], [6]⟩, ⟨[1, 1], [6]⟩⟩ : MaskedOut).result =
      ⟨(⟨[1, 1], [3]⟩ : Tensor).shape,
        List.zipWith (fun a b => a * b) (⟨[1, 1], [3]⟩ : Tensor).data
          (expandAs ⟨[1, 1], [2]⟩ (⟨[1, 1], [3]⟩ : Tensor).shape).data⟩ :=
  masked_loss_in_place_product ⟨[1, 1], [3]⟩ ⟨[1, 1], [2]⟩ ⟨⟨[1, 1], [6]⟩, ⟨[1, 1], [6]⟩⟩
    (by simp [masked_loss, expandAs, padShape, multiIndex, flatIndex, tensorGetD,
      List.range_succ] <;> norm_num)

/-- Claim C5, counterexample: a negative margin (int -1 or float -1/2) is silently
skipped by the `margin > 0` guard and trims nothing, where the claim says it errors. -/
theorem icl_margin_negative_no_error :
    icl_margin_trim (.intM (-1)) [8, 8] = .ok [0, 0] ∧
    icl_margin_trim (.floatM (-1 / 2)) [8, 8] = .ok [0, 0] := by
  constructor
  · simp [icl_margin_trim, marginVal] <;> norm_num
  · simp [icl_margin_trim, marginVal] <;> norm_num

/-- Claim C5, amended: a positive int margin trims that many points per axis per
side, a float margin in (0, 1) trims that fraction of each axis per side, a float
margin ≥ 1 raises ValueError, and NON-POSITIVE margins (int or float) are silently
ignored rather than raising. -/
theorem icl_margin_trim_spec (m : Int) (f : ℚ) (gs : List Nat) :
    (0 < m → icl_margin_trim (.intM m) gs = .ok (List.replicate gs.length m.toNat)) ∧
    (0 < f → f < 1 → icl_margin_trim (.floatM f) gs =
      .ok (gs.map (fun n => (f * (n : ℚ)).floor.toNat))) ∧
    (1 ≤ f → icl_margin_trim (.floatM f) gs = .error "ValueError: margin") ∧
    (m ≤ 0 → icl_margin_trim (.intM m) gs = .ok (List.replicate gs.length 0)) ∧
    (f ≤ 0 → icl_margin_trim (.floatM f) gs = .ok (List.replicate gs.length 0)) := by
  refine ⟨?_, ?_, ?_, ?_, ?_⟩
  · intro hm
    have h1 : marginVal (.intM m) > 0 := by
      simp only [marginVal]
      exact_mod_cast hm
    have h2 : (max 0 m).toNat = m.toNat := by omega
    simp [icl_margin_trim, h1, h2]
  · intro h0 h1
    have hg : marginVal (.floatM f) > 0 := h0
    have hc : ¬ (f < 0 ∨ f ≥ 1) := by push_neg; constructor <;> linarith
    simp [icl_margin_trim, hg, hc]
  · intro h1
    have hg : marginVal (.floatM f) > 0 := by
      simp only [marginVal]
      linarith
    have hc : f < 0 ∨ f ≥ 1 := Or.inr h1
    simp [icl_margin_trim, hg, hc]
  · intro hm
    have hg : ¬ marginVal (.intM m) > 0 := by
      simp only [marginVal, not_lt]
      exact_mod_cast hm
    simp [icl_margin_trim, hg]
  · intro hf
    have hg : ¬ marginVal (.floatM f) > 0 := by
      simp only [marginVal, not_lt]
      exact hf
    simp [icl_margin_trim, hg]

/-- Witness for the amended C5 at concrete margins over an 8-by-8 grid. -/
theorem icl_margin_trim_spec_witness :
    icl_margin_trim (.intM 2) [8, 8] = .ok [2, 2] ∧
    icl_margin_trim (.floatM (1 / 4)) [8, 8] = .ok [2, 2] ∧
    icl_margin_trim (.floatM (3 / 2)) [8, 8] = .error "ValueError: margin" := by
  refine ⟨?_, ?_, ?_⟩
  · rw [(icl_margin_trim_spec 2 (1 / 4) [8, 8]).1 (by decide)]
    rfl
  · rw [(icl_margin_trim_spec 2 (1 / 4) [8, 8]).2.1 (by norm_num) (by norm_num)]
    norm_num [Rat.floor]
    decide
  · exact (icl_margin_trim_spec 2 (3 / 2) [8, 8]).2.2.1 (by norm_num)

/-- Claim C6, counterexample: with reduction "sum" and a mask with one nonzero
entry out of two points, the code divides the sum 2 by the TOTAL element count 2
(result 1), not by the nonzero mask count 1 (which would give 2). -/
theorem icl_reduce_sum_mask_divisor_claim_false :
    icl_reduce [1, 1] (some [1, 0]) "sum" = [1] ∧
    ([1] : List ℚ) ≠ [(1 + 1 : ℚ) / (nonzeroCountL [1, 0] : ℚ)] := by
  constructor
  · simp [icl_reduce] <;> norm_num
  · norm_num [nonzeroCountL]

/-- Claim C6, amended: "none" returns the per-point field; "mean" divides the sum
by the nonzero mask count when a mask is given and by the total element count
otherwise; "sum" always divides by the total element count, mask or not. -/
theorem icl_reduce_divisors (errPts : List ℚ) (mask : Option (List ℚ)) (md : List ℚ) :
    icl_reduce errPts mask "none" = errPts ∧
    icl_reduce errPts (some md) "mean" = [errPts.sum / (nonzeroCountL md : ℚ)] ∧
    icl_reduce errPts none "mean" = [errPts.sum / (errPts.length : ℚ)] ∧
    icl_reduce errPts mask "sum" = [errPts.sum / (errPts.length : ℚ)] := by
  exact ⟨rfl, rfl, rfl, rfl⟩

/-- Claim C7, counterexample: the signature default of `q` is 1, so an unspecified
`q` resolves to 1 and not to 1/p (here p = 2, 1/p = 1/2). -/
theorem grad_loss_default_q_claim_false :
    grad_loss_default_q = some 1 ∧
    grad_loss_resolve_q 2 grad_loss_default_q = 1 ∧
    grad_loss_resolve_q 2 grad_loss_default_q ≠ 1 / 2 := by
  exact ⟨rfl, rfl, by norm_num [grad_loss_resolve_q, grad_loss_default_q]⟩

/-- Claim C7, amended: an unspecified `q` defaults to 1 (the signature default);
only an explicit `q = None` resolves to 1/p; and `q == 0` takes the absolute value
of the summed per-key terms instead of applying a zero power (the result with
q = 0 is the pointwise absolute value of the result with the identity power q = 1,
for every exponentiation primitive). -/
theorem grad_loss_q_semantics (p : ℚ) (powFn : ℚ → ℚ → ℚ) (ndimU chU : Nat)
    (dv : List (List ℚ)) (h4 : 4 ≤ ndimU) (hch : ndimU - 2 = chU) :
    grad_loss_resolve_q p none = 1 / p ∧
    grad_loss_resolve_q p grad_loss_default_q = 1 ∧
    grad_loss powFn ndimU chU dv p (some 0) "none" =
      Except.map (fun l => l.map (fun x => |x|))
        (grad_loss powFn ndimU chU dv p (some 1) "none") := by
  refine ⟨rfl, rfl, ?_⟩
  have hlt : ¬ ndimU < 4 := by omega
  have hne : ¬ ndimU - 2 ≠ chU := by omega
  simp only [grad_loss, if_neg hlt, if_neg hne, grad_loss_resolve_q]
  rw [reduceList_none, reduceList_none]
  norm_num [Except.map]

/-- Witness for the amended C7 at p = 2 over a concrete derivative stack. -/
theorem grad_loss_q_semantics_witness :
    grad_loss_resolve_q 2 none = 1 / 2 ∧
    grad_loss_resolve_q 2 grad_loss_default_q = 1 ∧
    grad_loss powFix 4 2 [[3], [4]] 2 (some 0) "none" =
      Except.map (fun l => l.map (fun x => |x|))
        (grad_loss powFix 4 2 [[3], [4]] 2 (some 1) "none") :=
  grad_loss_q_semantics 2 powFix 4 2 [[3], [4]] (by decide) (by decide)

/-- Claim C8: `ssd_loss` on 1-by-1-by-1-by-1 tensors with values 1 and 0 returns 1
under the default reduction "sum", returns 1 under "mean", and 1/2 with norm = 2;
a norm value ≤ 0 is silently ignored for every input, and a norm that does not
squeeze to a 0-dimensional scalar raises ValueError. -/
theorem ssd_loss_spec :
    ssd_loss ⟨[1, 1, 1, 1], [1]⟩ ⟨[1, 1, 1, 1], [0]⟩ none none "sum" = .ok (scalarT 1) ∧
    ssd_loss ⟨[1, 1, 1, 1], [1]⟩ ⟨[1, 1, 1, 1], [0]⟩ none none "mean" = .ok (scalarT 1) ∧
    ssd_loss ⟨[1, 1, 1, 1], [1]⟩ ⟨[1, 1, 1, 1], [0]⟩ none (some ⟨[], [2]⟩) "sum" =
      .ok (scalarT (1 / 2)) ∧
    (∀ (input target : Tensor) (mask : Option Tensor) (nt : Tensor) (reduction : String),
      squeezeShape nt.shape = [] → nt.data.getD 0 0 ≤ 0 →
      ssd_loss input target mask (some nt) reduction =
        ssd_loss input target mask none reduction) ∧
    (∀ (input target nt : Tensor) (reduction : String),
      input.shape = target.shape →
      (reduction = "mean" ∨ reduction = "sum" ∨ reduction = "none") →
      squeezeShape nt.shape ≠ [] →
      ssd_loss input target none (some nt) reduction =
        .error "ValueError: norm must be scalar") := by
  refine ⟨?_, ?_, ?_, ?_, ?_⟩
  · simp [ssd_loss, masked_loss, reduce_loss, tmean, tsum, numel, scalarT] <;> norm_num
  · simp [ssd_loss, masked_loss, reduce_loss, tmean, tsum, numel, scalarT] <;> norm_num
  · simp [ssd_loss, masked_loss, reduce_loss, tmean, tsum, numel, scalarT, squeezeShape] <;>
      norm_num
  · intro input target mask nt reduction hsq hle
    unfold ssd_loss
    split
    · rfl
    · cases masked_loss
        ⟨input.shape, List.zipWith (fun a b => (a - b) ^ 2) input.data target.data⟩ mask with
      | error e => rfl
      | ok mo =>
        dsimp only
        cases reduce_loss mo.result reduction mask with
        | error e => rfl
        | ok red =>
          dsimp only
          rw [if_neg (by simp [hsq]), if_neg (not_lt.mpr hle)]
  · intro input target nt reduction hsh hred hsq
    unfold ssd_loss
    rw [if_neg (by simp [hsh])]
    rcases hred with h | h | h <;> subst h <;>
      simp [masked_loss, reduce_loss, hsq]

/-- Witness for C8: a nonpositive norm is a no-op and a vector norm errors, at
concrete inputs. -/
theorem ssd_loss_spec_witness :
    ssd_loss ⟨[1, 1, 1, 1], [1]⟩ ⟨[1, 1, 1, 1], [0]⟩ none (some ⟨[], [-2]⟩) "sum" =
      ssd_loss ⟨[1, 1, 1, 1], [1]⟩ ⟨[1, 1, 1, 1], [0]⟩ none none "sum" ∧
    ssd_loss ⟨[1, 1, 1, 1], [1]⟩ ⟨[1, 1, 1, 1], [0]⟩ none (some ⟨[2], [1, 2]⟩) "mean" =
      .error "ValueError: norm must be scalar" :=
  ⟨ssd_loss_spec.2.2.2.1 ⟨[1, 1, 1, 1], [1]⟩ ⟨[1, 1, 1, 1], [0]⟩ none ⟨[], [-2]⟩ "sum"
      rfl (by norm_num),
   ssd_loss_spec.2.2.2.2 ⟨[1, 1, 1, 1], [1]⟩ ⟨[1, 1, 1, 1], [0]⟩ ⟨[2], [1, 2]⟩ "mean"
      rfl (Or.inl rfl) (by decide)⟩

/-- Claim C9: `dice_score(x, x)` equals 1 for every nonzero binary tensor x of rank
at least 3: the epsilon-adjusted intersection equals the epsilon-adjusted
denominator at every batch-channel pair, and the mean of the all-ones result is 1. -/
theorem dice_score_self_one (x : Tensor)
    (hrank : 3 ≤ x.shape.length)
    (hlen : x.data.length = x.shape.prod)
    (hbin : ∀ v ∈ x.data, v = 0 ∨ v = 1)
    (hnz : ∃ v ∈ x.data, v ≠ 0) :
    dice_score x x none (1 / 1000000000000000) "mean" = .ok (scalarT 1) := by
  obtain ⟨shape, data⟩ := x
  dsimp only at hrank hlen hbin hnz
  rcases shape with _ | ⟨s0, shape⟩
  · simp at hrank
  rcases shape with _ | ⟨s1, rest⟩
  · simp at hrank
  simp only [List.length_cons] at hrank
  have hpos : 0 < data.length := by
    rcases hnz with ⟨v, hv, _⟩
    exact List.length_pos.mpr (List.ne_nil_of_mem hv)
  have hprod : 0 < s0 * (s1 * rest.prod) := by
    rw [hlen] at hpos
    simpa [List.prod_cons] using hpos
  have hs0 : 0 < s0 := by
    rcases Nat.eq_zero_or_pos s0 with h | h
    · subst h; simp at hprod
    · exact h
  have hs1 : 0 < s1 := by
    rcases Nat.eq_zero_or_pos s1 with h | h
    · subst h; simp at hprod
    · exact h
  have hm : 0 < s0 * s1 := Nat.mul_pos hs0 hs1
  have hc1 : ¬ ((s0 :: s1 :: rest).length < 3) := by
    simp only [List.length_cons]
    omega
  simp only [dice_score, dot_channels]
  rw [if_neg hc1, if_neg (by simp)]
  simp only [List.getD_cons_zero, List.getD_cons_succ, List.drop_succ_cons, List.drop_zero,
    tensorGetD]
  rw [zipWith_map_same, zipWith_map_same]
  rw [dice_ratio_map_one _ _ _ ?hg (by norm_num)]
  case hg =>
    intro k
    apply List.sum_nonneg
    intro t ht
    rcases List.mem_map.mp ht with ⟨j, _, rfl⟩
    rw [mul_one]
    exact mul_self_nonneg _
  rw [List.length_range]
  have hmean : tmean ⟨[s0, s1], List.replicate (s0 * s1) (1 : ℚ)⟩ = 1 := by
    unfold tmean tsum numel
    simp [List.sum_replicate, List.length_replicate]
    rw [div_self]
    exact_mod_cast hm.ne'
  rw [show reduce_loss ⟨[s0, s1], List.replicate (s0 * s1) (1 : ℚ)⟩ "mean" none =
      .ok (scalarT (tmean ⟨[s0, s1], List.replicate (s0 * s1) (1 : ℚ)⟩)) from rfl, hmean]

/-- Witness for C9 at a concrete one-voxel binary tensor. -/
theorem dice_score_self_one_witness :
    dice_score ⟨[1, 1, 1], [1]⟩ ⟨[1, 1, 1], [1]⟩ none (1 / 1000000000000000) "mean" =
      .ok (scalarT 1) :=
  dice_score_self_one ⟨[1, 1, 1], [1]⟩ (by decide) (by decide) (by norm_num)
    ⟨1, List.mem_singleton.mpr rfl, by norm_num⟩

end Deepali
